import Mathlib

/-!
Verification of the query-time retrieval-and-answer pipeline and its
persistence layer in the `ms-graph-next-app` repository.

The development shallowly embeds the relevant TypeScript source:

* `src/app/components/Assistant.tsx` — conversation-history truncation in
  `handleSubmit`, and the error/retry path (`retryMessage` plus the regex
  extraction wired to the Retry button).
* `src/app/api/embed/route.ts` — the embedding endpoint.
* `src/app/api/db-sync/route.ts` — formatting of Graph emails before upsert.
* `src/app/utils/neondb.ts` — `upsertEmails`, `upsertEvents`,
  `insertDocumentPage`, `deleteDocument`, together with the SQL schema
  (UNIQUE keys, `vector(1536)` column) appended to that file.
* the PDF upload component (`processFile` in the KnowledgeBase component).

Postgres tables with a UNIQUE key targeted by `ON CONFLICT ... DO UPDATE`
are modelled as finite maps `key -> Option row`; append-only tables with a
SERIAL primary key are modelled as lists of rows.  Transactions are
modelled by computing the new state off to the side and publishing it only
on commit; a failure oracle parameter stands for the possibility that any
individual SQL statement raises.

The backend retrieval service (`retrieve`, `filter_and_format`) is not part
of this repository's source tree; those two operations are modelled from
the specification text, as their doc comments state.
-/

namespace MsGraphApp

/-! ### Characters used when reconstructing literal UI strings

The double quote and the apostrophe are built from their code points so the
embedded message templates match the source text exactly. -/

def quoteChar : Char := Char.ofNat 34

def aposChar : Char := Char.ofNat 39

/-! ### C2: conversation-history truncation in `Assistant.handleSubmit`

`Assistant.tsx` lines 308-348: the submit handler reads the current
`messages` state (the prior conversation, most-recent-last), computes
`messages.slice(-6).map(msg => ({role, content}))` and sends it as
`conversation_history` alongside `query` and `filter_by.user_id`. -/

/-- Message roles, from the `Message` interface in `Assistant.tsx`. -/
inductive Role where
  | user
  | assistant
deriving DecidableEq, Repr

/-- A chat message as used by `handleSubmit`: only the `role` and `content`
fields take part in building the request (timestamps, attached documents and
the error flag are display-only). -/
structure ChatMessage where
  role : Role
  content : String
deriving DecidableEq, Repr

/-- JavaScript `String.prototype.trim()`: strips leading and trailing
whitespace, modelled character by character. -/
def jsTrim (s : String) : String :=
  ⟨((s.data.dropWhile Char.isWhitespace).reverse.dropWhile
      Char.isWhitespace).reverse⟩

/-- JavaScript `Array.prototype.slice(-n)`: the last `min(n, length)`
elements in order.  For a negative start index JS uses
`max(length + start, 0)`, which is exactly truncated subtraction. -/
def jsSliceLast (n : Nat) (xs : List α) : List α :=
  xs.drop (xs.length - n)

/-- The `conversationHistory` value built in `handleSubmit`
(`messages.slice(-6).map(msg => ({role: msg.role, content: msg.content}))`). -/
def conversationHistory (msgs : List ChatMessage) : List (Role × String) :=
  (jsSliceLast 6 msgs).map fun m => (m.role, m.content)

/-- The JSON body `handleSubmit` POSTs to the backend `query` endpoint. -/
structure QueryRequest where
  query : String
  user_id : String
  conversation_history : List (Role × String)
deriving DecidableEq, Repr

/-- The request construction in `handleSubmit`: guarded by
`!inputValue.trim()` (no request for blank input); the user message content
is `inputValue.trim()` and the history is the pre-submit `messages` state
truncated to the last 6 turns. -/
def buildQueryRequest (userId inputValue : String) (msgs : List ChatMessage) :
    Option QueryRequest :=
  if jsTrim inputValue = "" then none
  else some { query := jsTrim inputValue
              user_id := userId
              conversation_history := conversationHistory msgs }

/-! ### C7: the embed endpoint (`src/app/api/embed/route.ts`) -/

/-- Responses of the embed route: HTTP 200 with the vector, HTTP 400 for a
missing/empty `text`, HTTP 500 when the external embedding call throws. -/
inductive EmbedResponse where
  | ok (embedding : List ℚ)
  | badRequest (msg : String)
  | serverError (msg : String)
deriving DecidableEq, Repr

/-- The POST handler of `src/app/api/embed/route.ts`.  The request body's
`text` field is `none` when absent; the JS guard `if (!text)` also fires on
the empty string.  The external call `embeddings.embedQuery(text)` is the
oracle `embedQuery`, which either yields a vector or throws with a message
(caught and turned into a 500 response). -/
def embedRoutePOST (embedQuery : String → Except String (List ℚ))
    (text? : Option String) : EmbedResponse :=
  match text? with
  | none => .badRequest "Text is required"
  | some t =>
      if t = "" then .badRequest "Text is required"
      else
        match embedQuery t with
        | .ok v => .ok v
        | .error e => .serverError e

end MsGraphApp

namespace MsGraphApp

/-! ### Theorems for C2 and C7 -/

/-- C2: For every conversation with `M` prior messages, the query request
sent to the backend carries exactly the most recent `min(M, 6)` prior
(role, content) turns, in their original order with the most recent last;
turns older than the last 6 are dropped entirely (the history equals the
projected message list with its oldest `M - 6` entries dropped), never
summarized or merged. -/
theorem handleSubmit_history_is_last_six (userId inputValue : String)
    (msgs : List ChatMessage) (req : QueryRequest)
    (h : buildQueryRequest userId inputValue msgs = some req) :
    req.conversation_history.length = min msgs.length 6 ∧
    req.conversation_history =
      (msgs.map fun m => (m.role, m.content)).drop (msgs.length - 6) := by
  unfold buildQueryRequest at h
  by_cases htrim : jsTrim inputValue = ""
  · simp [htrim] at h
  · simp [htrim] at h
    have hhist : req.conversation_history = conversationHistory msgs := by
      rw [← h]
    constructor
    · rw [hhist]
      unfold conversationHistory jsSliceLast
      rw [List.length_map, List.length_drop]
      omega
    · rw [hhist]
      unfold conversationHistory jsSliceLast
      rw [List.map_drop]

theorem handleSubmit_history_is_last_six_witness :
    ∃ req, buildQueryRequest "alice" " hi "
        [⟨Role.assistant, "greeting"⟩, ⟨Role.user, "q1"⟩, ⟨Role.assistant, "a1"⟩,
         ⟨Role.user, "q2"⟩, ⟨Role.assistant, "a2"⟩, ⟨Role.user, "q3"⟩,
         ⟨Role.assistant, "a3"⟩] = some req ∧
      req.conversation_history.length = min 7 6 ∧
      req.conversation_history =
        ([⟨Role.assistant, "greeting"⟩, ⟨Role.user, "q1"⟩, ⟨Role.assistant, "a1"⟩,
          ⟨Role.user, "q2"⟩, ⟨Role.assistant, "a2"⟩, ⟨Role.user, "q3"⟩,
          (⟨Role.assistant, "a3"⟩ : ChatMessage)].map
            fun m => (m.role, m.content)).drop (7 - 6) := by
  have h : buildQueryRequest "alice" " hi "
      [⟨Role.assistant, "greeting"⟩, ⟨Role.user, "q1"⟩, ⟨Role.assistant, "a1"⟩,
       ⟨Role.user, "q2"⟩, ⟨Role.assistant, "a2"⟩, ⟨Role.user, "q3"⟩,
       ⟨Role.assistant, "a3"⟩] =
      some { query := "hi"
             user_id := "alice"
             conversation_history :=
               [(Role.user, "q1"), (Role.assistant, "a1"), (Role.user, "q2"),
                (Role.assistant, "a2"), (Role.user, "q3"),
                (Role.assistant, "a3")] } := by decide
  refine ⟨_, h, ?_⟩
  have := handleSubmit_history_is_last_six "alice" " hi "
    [⟨Role.assistant, "greeting"⟩, ⟨Role.user, "q1"⟩, ⟨Role.assistant, "a1"⟩,
     ⟨Role.user, "q2"⟩, ⟨Role.assistant, "a2"⟩, ⟨Role.user, "q3"⟩,
     ⟨Role.assistant, "a3"⟩] _ h
  exact this

/-- C7: the embed endpoint returns a successful response containing an
embedding vector if and only if the request supplies non-empty text and the
external embedding call succeeds; absent or empty text yields a 400 error,
a failed external call yields a 500 error, and neither failure returns a
vector. -/
theorem embedRoute_ok_iff (embedQuery : String → Except String (List ℚ))
    (text? : Option String) :
    (∀ v, (embedRoutePOST embedQuery text? = .ok v ↔
      ∃ t, text? = some t ∧ t ≠ "" ∧ embedQuery t = .ok v)) ∧
    ((text? = none ∨ text? = some "") →
      embedRoutePOST embedQuery text? = .badRequest "Text is required") ∧
    (∀ t e, text? = some t → t ≠ "" → embedQuery t = .error e →
      embedRoutePOST embedQuery text? = .serverError e) := by
  refine ⟨?_, ?_, ?_⟩
  · intro v
    constructor
    · intro h
      cases text? with
      | none => simp [embedRoutePOST] at h
      | some t =>
          by_cases ht : t = ""
          · rw [ht] at h; simp [embedRoutePOST] at h
          · refine ⟨t, rfl, ht, ?_⟩
            simp only [embedRoutePOST, if_neg ht] at h
            cases hq : embedQuery t with
            | ok w => rw [hq] at h; simp at h; rw [h]
            | error e => rw [hq] at h; simp at h
    · rintro ⟨t, ht, hne, hq⟩
      simp [embedRoutePOST, ht, hne, hq]
  · rintro (h | h) <;> simp [embedRoutePOST, h]
  · intro t e ht hne hq
    simp [embedRoutePOST, ht, hne, hq]

theorem embedRoute_ok_iff_witness :
    embedRoutePOST (fun t => .ok [(t.length : ℚ)]) (some "hello") = .ok [5] ∧
    embedRoutePOST (fun t => .ok [(t.length : ℚ)]) (some "") =
      .badRequest "Text is required" ∧
    embedRoutePOST (fun _ => .error "quota") (some "hello") =
      .serverError "quota" := by
  refine ⟨?_, ?_, ?_⟩
  · exact ((embedRoute_ok_iff (fun t => .ok [(t.length : ℚ)]) (some "hello")).1
      [5]).2 ⟨"hello", rfl, by decide, rfl⟩
  · exact (embedRoute_ok_iff (fun t => .ok [(t.length : ℚ)]) (some "")).2.1
      (Or.inr rfl)
  · exact (embedRoute_ok_iff (fun _ => .error "quota") (some "hello")).2.2
      "hello" "quota" rfl (by decide) rfl

end MsGraphApp

namespace MsGraphApp

/-! ### Keyed Postgres tables and `ON CONFLICT ... DO UPDATE` upserts

`outlook_mails` carries `UNIQUE(user_id, mail_id)` and the event tables
carry `UNIQUE(user_id, event_id)` (schema appended to
`src/app/utils/neondb.ts`), and every insert in `upsertEmails` /
`upsertEvents` targets that key with `ON CONFLICT ... DO UPDATE SET`
overwriting every non-key column.  Such a table is a finite map from the
key to the row. -/

/-- A Postgres table with a UNIQUE key, as a map from key to row. -/
def KeyedTable (κ α : Type) := κ → Option α

/-- One `INSERT ... ON CONFLICT (key) DO UPDATE SET <all columns>`: the row
stored at the row's key becomes exactly the incoming row, every other key
is untouched. -/
def upsertRow [DecidableEq κ] (key : α → κ) (t : KeyedTable κ α) (r : α) :
    KeyedTable κ α :=
  fun k => if k = key r then some r else t k

/-- The loop of single-row upserts in `upsertEmails` / `upsertEvents` when
no statement raises. -/
def upsertRows [DecidableEq κ] (key : α → κ) :
    KeyedTable κ α → List α → KeyedTable κ α
  | t, [] => t
  | t, r :: rs => upsertRows key (upsertRow key t r) rs

/-- The `BEGIN ... COMMIT` body: rows are upserted one at a time into the
working state; `mayFail` is the oracle saying whether the SQL statement for
a given row raises.  The loop aborts at the first failing row. -/
def runUpsertTx [DecidableEq κ] (key : α → κ) (mayFail : α → Bool) :
    KeyedTable κ α → List α → Option (KeyedTable κ α)
  | t, [] => some t
  | t, r :: rs =>
      if mayFail r then none
      else runUpsertTx key mayFail (upsertRow key t r) rs

/-- The whole transaction as in `upsertEmails` (`neondb.ts` lines 25-73)
and `upsertEvents` (lines 76-122): `BEGIN`, the insert loop, `COMMIT` on
success (publishing the new state, flag `true`), `ROLLBACK` on any error
(original state kept, flag `false`). -/
def upsertTx [DecidableEq κ] (key : α → κ) (mayFail : α → Bool)
    (t : KeyedTable κ α) (rows : List α) : Bool × KeyedTable κ α :=
  match runUpsertTx key mayFail t rows with
  | some t2 => (true, t2)
  | none => (false, t)

/-- A row of `outlook_mails` as written by `upsertEmails` (the SERIAL `id`
and the defaulted `created_at` are omitted; recipient lists stand for their
`JSON.stringify` encoding, which is deterministic in the list). -/
structure EmailRow where
  user_id : String
  mail_id : String
  subject : String
  from_name : String
  from_email : String
  received_datetime : String
  body_preview : String
  is_read : Bool
  to_recipients : List String
  cc_recipients : List String
deriving DecidableEq, Repr

/-- The UNIQUE key of `outlook_mails`. -/
def emailKey (r : EmailRow) : String × String := (r.user_id, r.mail_id)

/-- A row of `outlook_events` / `outlook_next_week_events` as written by
`upsertEvents`. -/
structure EventRow where
  user_id : String
  event_id : String
  subject : String
  body_preview : String
  start_datetime : String
  end_datetime : String
  start_timezone : String
  end_timezone : String
  attendees : List String
deriving DecidableEq, Repr

/-- The UNIQUE key of the event tables. -/
def eventKey (r : EventRow) : String × String := (r.user_id, r.event_id)

abbrev EmailTable := KeyedTable (String × String) EmailRow

abbrev EventTable := KeyedTable (String × String) EventRow

/-- The `upsertEmails` function of `neondb.ts`. -/
def upsertEmails (mayFail : EmailRow → Bool) (t : EmailTable)
    (emails : List EmailRow) : Bool × EmailTable :=
  upsertTx emailKey mayFail t emails

/-- The `upsertEvents` function of `neondb.ts`, for the event table named
by its `tableName` argument. -/
def upsertEvents (mayFail : EventRow → Bool) (t : EventTable)
    (events : List EventRow) : Bool × EventTable :=
  upsertTx eventKey mayFail t events

/-! ### The db-sync email formatting (`src/app/api/db-sync/route.ts`) -/

/-- The raw Microsoft Graph email as received by the db-sync route; `none`
models an absent field.  `fromName` / `fromEmail` stand for the optional
chains `email.from?.emailAddress?.name` / `...address`; `toRecipients` /
`ccRecipients` are `none` when `Array.isArray` fails. -/
structure GraphEmail where
  id : Option String
  subject : Option String
  fromName : Option String
  fromEmail : Option String
  receivedDateTime : Option String
  bodyPreview : Option String
  isRead : Bool
  toRecipients : Option (List String)
  ccRecipients : Option (List String)
deriving DecidableEq, Repr

/-- JavaScript `v || d` on an optional string: the default is taken both
when the field is absent and when it is the (falsy) empty string. -/
def jsOrStr (v : Option String) (d : String) : String :=
  match v with
  | none => d
  | some s => if s = "" then d else s

/-- Truthiness of an optional string field (JS `!!v`). -/
def truthyStr (v : Option String) : Bool :=
  match v with
  | none => false
  | some s => if s = "" then false else true

/-- The mapping applied to each email in the db-sync route (lines 20-41).
`freshId` stands for the template string
`unknown-<Date.now()>-<Math.random()>` generated for this email on this
run, and `nowIso` for `new Date().toISOString()`: both are fresh values,
not functions of the email. -/
def formatGraphEmail (userId freshId nowIso : String) (e : GraphEmail) :
    EmailRow :=
  { user_id := userId
    mail_id := jsOrStr e.id freshId
    subject := jsOrStr e.subject "No Subject"
    from_name := jsOrStr e.fromName "Unknown"
    from_email := jsOrStr e.fromEmail "unknown@example.com"
    received_datetime := jsOrStr e.receivedDateTime nowIso
    body_preview := jsOrStr e.bodyPreview ""
    is_read := e.isRead
    to_recipients := e.toRecipients.getD []
    cc_recipients := e.ccRecipients.getD [] }

/-- `data.map(...)` of the db-sync route, with the fresh values indexed by
the email's position in the batch. -/
def formatGraphEmails (userId : String) (freshId nowIso : Nat → String) :
    Nat → List GraphEmail → List EmailRow
  | _, [] => []
  | i, e :: es =>
      formatGraphEmail userId (freshId i) (nowIso i) e ::
        formatGraphEmails userId freshId nowIso (i + 1) es

/-- One successful run of the db-sync email upsert (`type: 'emails'`): the
batch is formatted and upserted into `outlook_mails`. -/
def dbSyncEmails (userId : String) (freshId nowIso : Nat → String)
    (t : EmailTable) (data : List GraphEmail) : EmailTable :=
  upsertRows emailKey t (formatGraphEmails userId freshId nowIso 0 data)

end MsGraphApp

namespace MsGraphApp

/-! ### Last-write-wins characterization of the upsert loop -/

/-- The last row of `rows` whose key is `k`, if any (searching from the
tail). -/
def lastWrite [DecidableEq κ] (key : α → κ) (k : κ) : List α → Option α
  | [] => none
  | r :: rs =>
      match lastWrite key k rs with
      | some r2 => some r2
      | none => if k = key r then some r else none

theorem upsertRows_apply [DecidableEq κ] (key : α → κ) (rows : List α)
    (k : κ) : ∀ t : KeyedTable κ α, upsertRows key t rows k =
      match lastWrite key k rows with
      | some r => some r
      | none => t k := by
  induction rows with
  | nil => intro t; rfl
  | cons r rs ih =>
      intro t
      show upsertRows key (upsertRow key t r) rs k = _
      rw [ih]
      cases h : lastWrite key k rs with
      | some r2 => simp [lastWrite, h]
      | none =>
          simp only [lastWrite, h]
          by_cases hk : k = key r
          · simp only [upsertRow, if_pos hk]
          · simp only [upsertRow, if_neg hk]

/-- Applying the same batch of keyed upserts a second time does not change
the table. -/
theorem upsertRows_idem [DecidableEq κ] (key : α → κ) (t : KeyedTable κ α)
    (rows : List α) :
    upsertRows key (upsertRows key t rows) rows = upsertRows key t rows := by
  funext k
  rw [upsertRows_apply, upsertRows_apply]
  cases h : lastWrite key k rows with
  | some r => rfl
  | none => rfl

/-! ### C3: is the db-sync email upsert idempotent? -/

/-- A truthy optional string is insensitive to the `||` default. -/
theorem jsOrStr_of_truthy (v : Option String) (d1 d2 : String)
    (h : truthyStr v = true) : jsOrStr v d1 = jsOrStr v d2 := by
  cases v with
  | none => simp [truthyStr] at h
  | some s =>
      by_cases hs : s = ""
      · simp [truthyStr, hs] at h
      · simp [jsOrStr, hs]

/-- When every email in the batch has a truthy `id` and a truthy
`receivedDateTime`, the formatted rows do not depend on the per-run fresh
values. -/
theorem formatGraphEmails_oracle_irrelevant (userId : String)
    (f1 n1 f2 n2 : Nat → String) (data : List GraphEmail)
    (hid : ∀ e ∈ data, truthyStr e.id = true)
    (hrecv : ∀ e ∈ data, truthyStr e.receivedDateTime = true) :
    ∀ i : Nat, formatGraphEmails userId f1 n1 i data =
      formatGraphEmails userId f2 n2 i data := by
  induction data with
  | nil => intro i; rfl
  | cons e es ih =>
      intro i
      have hide : truthyStr e.id = true := hid e (List.mem_cons_self e es)
      have hrece : truthyStr e.receivedDateTime = true :=
        hrecv e (List.mem_cons_self e es)
      have hrow : formatGraphEmail userId (f1 i) (n1 i) e =
          formatGraphEmail userId (f2 i) (n2 i) e := by
        unfold formatGraphEmail
        rw [jsOrStr_of_truthy e.id (f1 i) (f2 i) hide,
          jsOrStr_of_truthy e.receivedDateTime (n1 i) (n2 i) hrece]
      show formatGraphEmail userId (f1 i) (n1 i) e :: _ =
        formatGraphEmail userId (f2 i) (n2 i) e :: _
      rw [hrow, ih (fun x hx => hid x (List.mem_cons_of_mem e hx))
        (fun x hx => hrecv x (List.mem_cons_of_mem e hx)) (i + 1)]

end MsGraphApp

namespace MsGraphApp

/-- C3 (amended): performing the db-sync email upsert twice with the same
input leaves `outlook_mails` in the same state as performing it once,
provided every email in the batch carries a truthy (present, non-empty)
`id` and a truthy `receivedDateTime`; for such emails the (user_id,
mail_id) key is stable across syncs, so the second run updates the
existing rows instead of inserting duplicates.  (Emails missing either
field get a per-run fresh value — `unknown-<Date.now()>-<Math.random()>`
resp. the current timestamp — so the unconditional claim fails.) -/
theorem dbSync_emails_idempotent (userId : String)
    (fresh1 now1 fresh2 now2 : Nat → String) (t : EmailTable)
    (data : List GraphEmail)
    (hid : ∀ e ∈ data, truthyStr e.id = true)
    (hrecv : ∀ e ∈ data, truthyStr e.receivedDateTime = true) :
    dbSyncEmails userId fresh2 now2
        (dbSyncEmails userId fresh1 now1 t data) data =
      dbSyncEmails userId fresh1 now1 t data := by
  unfold dbSyncEmails
  rw [formatGraphEmails_oracle_irrelevant userId fresh2 now2 fresh1 now1
    data hid hrecv 0]
  exact upsertRows_idem emailKey t (formatGraphEmails userId fresh1 now1 0 data)

/-- A Graph email with no `id`, as the db-sync route may receive. -/
def c3IdlessEmail : GraphEmail :=
  { id := none
    subject := some "Hello"
    fromName := some "John Doe"
    fromEmail := some "john@example.com"
    receivedDateTime := some "2025-01-01T00:00:00Z"
    bodyPreview := some "hi"
    isRead := false
    toRecipients := some []
    ccRecipients := some [] }

/-- The table after one db-sync run on `[c3IdlessEmail]`, starting from an
empty `outlook_mails`; the run generated the fresh id `unknown-100-0.5`. -/
def c3TableOnce : EmailTable :=
  dbSyncEmails "alice" (fun _ => "unknown-100-0.5")
    (fun _ => "2025-02-01T00:00:00Z") (fun _ => none) [c3IdlessEmail]

/-- The table after a second identical run, whose fresh id is
`unknown-200-0.7`. -/
def c3TableTwice : EmailTable :=
  dbSyncEmails "alice" (fun _ => "unknown-200-0.7")
    (fun _ => "2025-02-02T00:00:00Z") c3TableOnce [c3IdlessEmail]

/-- C3 counterexample: syncing the single id-less email twice does not
leave `outlook_mails` as after one sync — the second run inserts a second
row under its freshly generated mail_id instead of updating the first. -/
theorem dbSync_emails_not_idempotent : c3TableTwice ≠ c3TableOnce := by
  intro h
  have h2 : c3TableTwice ("alice", "unknown-200-0.7") =
      c3TableOnce ("alice", "unknown-200-0.7") :=
    congrFun h ("alice", "unknown-200-0.7")
  revert h2
  decide

/-- A Graph email whose `id` and `receivedDateTime` are both present and
non-empty. -/
def c3StableEmail : GraphEmail :=
  { id := some "AAMkAGI2"
    subject := some "Weekly sync"
    fromName := some "Jane"
    fromEmail := some "jane@example.com"
    receivedDateTime := some "2025-01-02T09:00:00Z"
    bodyPreview := some "agenda"
    isRead := true
    toRecipients := some ["alice@example.com"]
    ccRecipients := some [] }

theorem dbSync_emails_idempotent_witness :
    dbSyncEmails "alice" (fun _ => "unknown-300-0.1")
        (fun _ => "2025-02-03T00:00:00Z")
        (dbSyncEmails "alice" (fun _ => "unknown-100-0.5")
          (fun _ => "2025-02-01T00:00:00Z") (fun _ => none) [c3StableEmail])
        [c3StableEmail] =
      dbSyncEmails "alice" (fun _ => "unknown-100-0.5")
        (fun _ => "2025-02-01T00:00:00Z") (fun _ => none) [c3StableEmail] :=
  dbSync_emails_idempotent "alice" (fun _ => "unknown-100-0.5")
    (fun _ => "2025-02-01T00:00:00Z") (fun _ => "unknown-300-0.1")
    (fun _ => "2025-02-03T00:00:00Z") (fun _ => none) [c3StableEmail]
    (by decide) (by decide)

end MsGraphApp

namespace MsGraphApp

/-! ### C5: atomicity of the batch upsert transactions -/

theorem runUpsertTx_none_of_fail [DecidableEq κ] (key : α → κ)
    (mayFail : α → Bool) (rows : List α)
    (h : ∃ r ∈ rows, mayFail r = true) :
    ∀ t : KeyedTable κ α, runUpsertTx key mayFail t rows = none := by
  induction rows with
  | nil => rcases h with ⟨r, hr, _⟩; cases hr
  | cons r rs ih =>
      intro t
      by_cases hf : mayFail r = true
      · simp [runUpsertTx, hf]
      · have h2 : ∃ x ∈ rs, mayFail x = true := by
          rcases h with ⟨x, hx, hfx⟩
          rcases List.mem_cons.mp hx with hx1 | hx2
          · exact absurd (hx1 ▸ hfx) hf
          · exact ⟨x, hx2, hfx⟩
        simp only [runUpsertTx, if_neg hf]
        exact ih h2 (upsertRow key t r)

theorem runUpsertTx_some_of_ok [DecidableEq κ] (key : α → κ)
    (mayFail : α → Bool) (rows : List α)
    (h : ∀ r ∈ rows, mayFail r = false) :
    ∀ t : KeyedTable κ α,
      runUpsertTx key mayFail t rows = some (upsertRows key t rows) := by
  induction rows with
  | nil => intro t; rfl
  | cons r rs ih =>
      intro t
      have hf : mayFail r = false := h r (List.mem_cons_self r rs)
      simp only [runUpsertTx, hf, if_neg Bool.false_ne_true]
      exact ih (fun x hx => h x (List.mem_cons_of_mem r hx)) (upsertRow key t r)

/-- C5: every batch ingestion of emails or events is atomic.  If persisting
any item in the batch fails, the transaction is rolled back: the stored
table is exactly as before the call and the failure is reported (`false`
flag).  If no item fails, the call reports success and every item in the
batch is persisted (the table is the full batch upsert). -/
theorem upsert_batches_atomic (mayFailE : EmailRow → Bool)
    (mayFailV : EventRow → Bool) (te : EmailTable) (tv : EventTable)
    (emails : List EmailRow) (events : List EventRow) :
    ((∃ r ∈ emails, mayFailE r = true) →
      upsertEmails mayFailE te emails = (false, te)) ∧
    ((∀ r ∈ emails, mayFailE r = false) →
      upsertEmails mayFailE te emails = (true, upsertRows emailKey te emails)) ∧
    ((∃ r ∈ events, mayFailV r = true) →
      upsertEvents mayFailV tv events = (false, tv)) ∧
    ((∀ r ∈ events, mayFailV r = false) →
      upsertEvents mayFailV tv events = (true, upsertRows eventKey tv events)) := by
  refine ⟨?_, ?_, ?_, ?_⟩
  · intro h
    unfold upsertEmails upsertTx
    rw [runUpsertTx_none_of_fail emailKey mayFailE emails h te]
  · intro h
    unfold upsertEmails upsertTx
    rw [runUpsertTx_some_of_ok emailKey mayFailE emails h te]
  · intro h
    unfold upsertEvents upsertTx
    rw [runUpsertTx_none_of_fail eventKey mayFailV events h tv]
  · intro h
    unfold upsertEvents upsertTx
    rw [runUpsertTx_some_of_ok eventKey mayFailV events h tv]

/-- A concrete email row that persists fine. -/
def c5GoodEmail : EmailRow :=
  { user_id := "alice"
    mail_id := "m1"
    subject := "Hi"
    from_name := "Bob"
    from_email := "bob@example.com"
    received_datetime := "2025-01-01T00:00:00Z"
    body_preview := "hello"
    is_read := false
    to_recipients := ["alice@example.com"]
    cc_recipients := [] }

/-- A concrete email row whose insert statement raises. -/
def c5BadEmail : EmailRow :=
  { user_id := "alice"
    mail_id := "m2"
    subject := "Broken"
    from_name := "Eve"
    from_email := "eve@example.com"
    received_datetime := "2025-01-02T00:00:00Z"
    body_preview := "oops"
    is_read := false
    to_recipients := []
    cc_recipients := [] }

/-- A concrete event row. -/
def c5Event : EventRow :=
  { user_id := "alice"
    event_id := "e1"
    subject := "Standup"
    body_preview := "daily"
    start_datetime := "2025-01-03T09:00:00Z"
    end_datetime := "2025-01-03T09:15:00Z"
    start_timezone := "UTC"
    end_timezone := "UTC"
    attendees := ["bob@example.com"] }

theorem upsert_batches_atomic_witness :
    upsertEmails (fun r => r.mail_id = "m2") (fun _ => none)
        [c5GoodEmail, c5BadEmail] = (false, fun _ => none) ∧
    upsertEvents (fun _ => false) (fun _ => none) [c5Event] =
      (true, upsertRows eventKey (fun _ => none) [c5Event]) := by
  constructor
  · exact (upsert_batches_atomic (fun r => decide (r.mail_id = "m2"))
      (fun _ => false) (fun _ => none) (fun _ => none)
      [c5GoodEmail, c5BadEmail] [c5Event]).1 (by decide)
  · exact (upsert_batches_atomic (fun r => decide (r.mail_id = "m2"))
      (fun _ => false) (fun _ => none) (fun _ => none)
      [c5GoodEmail, c5BadEmail] [c5Event]).2.2.2 (by decide)

end MsGraphApp

namespace MsGraphApp

/-! ### The knowledge-base tables (`documents`, `document_pages`)

From the schema appended to `src/app/utils/neondb.ts`: `documents` and
`document_pages` have SERIAL primary keys and no UNIQUE business key, so
they are modelled as lists of rows (insertion order); `page_embeddings`
has type `vector(1536)`, so Postgres accepts an insert only when the
embedding has exactly 1536 components. -/

/-- The configured dimension of `document_pages.page_embeddings`
(`vector(1536)`, `neondb.ts` line 321), matching the output size of the
`text-embedding-3-small` embedder used by the embed route. -/
def EMBEDDING_DIM : Nat := 1536

/-- A row of `documents` (SERIAL id made explicit, `created_at` omitted). -/
structure DocumentRow where
  id : Nat
  user_id : String
  title : String
  file_name : String
  file_size : Nat
  file_type : String
deriving DecidableEq, Repr

/-- A row of `document_pages` (SERIAL id and `created_at` omitted; the
vector column is carried as its list of components). -/
structure DocumentPageRow where
  document_id : Nat
  user_id : String
  page_number : Nat
  page_content : String
  page_embeddings : List ℚ
deriving DecidableEq, Repr

/-- The whole database as created by the schema in `neondb.ts`. -/
structure AppDb where
  outlook_mails : EmailTable
  outlook_events : EventTable
  outlook_next_week_events : EventTable
  documents : List DocumentRow
  document_pages : List DocumentPageRow

/-- The `insertDocumentPage` function of `neondb.ts` (lines 156-192): the
embedding array is serialized to a pgvector literal `[x1,...,xn]` and
inserted; Postgres parses the literal back into a vector and rejects the
statement when its dimension is not 1536, in which case the catch block
reports `success: false` and nothing is stored.  On success the row is
appended with the component list unchanged (serialize-then-parse is the
identity on the components). -/
def insertDocumentPage (db : AppDb) (page : DocumentPageRow) :
    Bool × AppDb :=
  if page.page_embeddings.length = EMBEDDING_DIM then
    (true, { db with document_pages := db.document_pages ++ [page] })
  else
    (false, db)

/-- The `deleteDocument` function of `neondb.ts` (lines 216-248): inside a
transaction, `DELETE FROM document_pages WHERE document_id = $1` and then
`DELETE FROM documents WHERE id = $1`; COMMIT publishes the new state,
any error triggers ROLLBACK and `success: false`.  `fail1` / `fail2` are
oracles for the two DELETE statements raising. -/
def deleteDocument (fail1 fail2 : Bool) (db : AppDb) (docId : Nat) :
    Bool × AppDb :=
  if fail1 then (false, db)
  else
    let afterPages : AppDb :=
      { db with document_pages :=
          db.document_pages.filter fun p => ¬ p.document_id = docId }
    if fail2 then (false, db)
    else
      (true, { afterPages with documents :=
          afterPages.documents.filter fun d => ¬ d.id = docId })

end MsGraphApp

namespace MsGraphApp

/-- C4: a page-ingestion request whose embedding vector length differs
from the configured 1536 stores nothing and reports failure; a vector of
exactly 1536 components is stored unchanged (appended as given, never
truncated or padded), with the rest of the database untouched. -/
theorem insertDocumentPage_dimension_check (db : AppDb)
    (page : DocumentPageRow) :
    (¬ page.page_embeddings.length = EMBEDDING_DIM →
      insertDocumentPage db page = (false, db)) ∧
    (page.page_embeddings.length = EMBEDDING_DIM →
      insertDocumentPage db page =
        (true, { db with document_pages := db.document_pages ++ [page] })) := by
  constructor
  · intro h
    unfold insertDocumentPage
    rw [if_neg h]
  · intro h
    unfold insertDocumentPage
    rw [if_pos h]

/-- A database with every table empty. -/
def emptyAppDb : AppDb :=
  { outlook_mails := fun _ => none
    outlook_events := fun _ => none
    outlook_next_week_events := fun _ => none
    documents := []
    document_pages := [] }

/-- A page whose embedding has only 3 components. -/
def c4ShortPage : DocumentPageRow :=
  { document_id := 1
    user_id := "alice"
    page_number := 1
    page_content := "short vector"
    page_embeddings := [1, 2, 3] }

/-- A page whose embedding has exactly 1536 components. -/
def c4GoodPage : DocumentPageRow :=
  { document_id := 1
    user_id := "alice"
    page_number := 2
    page_content := "good vector"
    page_embeddings := List.replicate 1536 (1 : ℚ) }

theorem insertDocumentPage_dimension_check_witness :
    insertDocumentPage emptyAppDb c4ShortPage = (false, emptyAppDb) ∧
    insertDocumentPage emptyAppDb c4GoodPage =
      (true, { emptyAppDb with
        document_pages := emptyAppDb.document_pages ++ [c4GoodPage] }) := by
  constructor
  · exact (insertDocumentPage_dimension_check emptyAppDb c4ShortPage).1
      (by decide)
  · refine (insertDocumentPage_dimension_check emptyAppDb c4GoodPage).2 ?_
    show (List.replicate 1536 (1 : ℚ)).length = EMBEDDING_DIM
    rw [List.length_replicate]
    rfl

/-- C10: `deleteDocument docId` removes exactly the `documents` row with
`id = docId` and the `document_pages` rows with `document_id = docId`,
leaving every other row of those tables and the whole of the email and
event tables unchanged; and when either DELETE fails the transaction rolls
back, leaving the entire database unchanged (with failure reported). -/
theorem deleteDocument_frame (db : AppDb) (docId : Nat) :
    deleteDocument false false db docId =
      (true, { db with
        documents := db.documents.filter fun d => ¬ d.id = docId
        document_pages :=
          db.document_pages.filter fun p => ¬ p.document_id = docId }) ∧
    deleteDocument true false db docId = (false, db) ∧
    deleteDocument true true db docId = (false, db) ∧
    deleteDocument false true db docId = (false, db) := by
  refine ⟨rfl, rfl, rfl, rfl⟩

end MsGraphApp

namespace MsGraphApp

/-! ### C9: the PDF upload path (`processFile` in the KnowledgeBase
component)

For each page 1..numPages the component extracts
`textContent.items.map(item => item.str).join(' ').trim()`, skips the page
when that text is empty, otherwise POSTs the text to `/api/embed` and
stores the page via `insertDocumentPage` with `page_content` set to the
extracted text and `page_embeddings` set to the returned embedding; any
failed call throws, aborting the loop (pages already inserted stay). -/

/-- JavaScript `Array.prototype.join(' ')`. -/
def jsJoinSpace : List String → String
  | [] => ""
  | [s] => s
  | s :: rest => s ++ " " ++ jsJoinSpace rest

/-- The text extracted from one PDF page: the item strings joined with a
space, then trimmed. -/
def extractPageText (items : List String) : String :=
  jsTrim (jsJoinSpace items)

/-- The page loop of `processFile`.  `embedApi` is the embed endpoint
(`none` when the call fails), `docId` the id returned by the document
insert, `pageNum` the 1-based loop counter.  Returns the final database
and whether the loop ran to completion. -/
def processPages (embedApi : String → Option (List ℚ)) (docId : Nat)
    (userId : String) : List (List String) → Nat → AppDb → AppDb × Bool
  | [], _, db => (db, true)
  | items :: rest, pageNum, db =>
      let pageText := extractPageText items
      if pageText.length = 0 then
        processPages embedApi docId userId rest (pageNum + 1) db
      else
        match embedApi pageText with
        | none => (db, false)
        | some emb =>
            let res := insertDocumentPage db
              { document_id := docId
                user_id := userId
                page_number := pageNum
                page_content := pageText
                page_embeddings := emb }
            if res.1 then
              processPages embedApi docId userId rest (pageNum + 1) res.2
            else
              (res.2, false)

/-- C9: every document page stored through the PDF upload path has
non-empty extracted text and an embedding obtained from exactly that
text — any page of the final database either was already stored before
the call, or has non-empty `page_content` equal to the extracted text of
one of the uploaded pages together with the embed endpoint's output for
exactly that text. -/
theorem processFile_stored_pages (embedApi : String → Option (List ℚ))
    (docId : Nat) (userId : String) (pages : List (List String)) :
    ∀ (n : Nat) (db : AppDb) (p : DocumentPageRow),
      p ∈ (processPages embedApi docId userId pages n db).1.document_pages →
      p ∈ db.document_pages ∨
        (¬ p.page_content.length = 0 ∧
         embedApi p.page_content = some p.page_embeddings ∧
         ∃ items ∈ pages, p.page_content = extractPageText items) := by
  induction pages with
  | nil => intro n db p hp; exact Or.inl hp
  | cons items rest ih =>
      intro n db p hp
      simp only [processPages] at hp
      by_cases hskip : (extractPageText items).length = 0
      · rw [if_pos hskip] at hp
        rcases ih (n + 1) db p hp with h | ⟨h1, h2, items2, hi, he⟩
        · exact Or.inl h
        · exact Or.inr ⟨h1, h2, items2, List.mem_cons_of_mem items hi, he⟩
      · rw [if_neg hskip] at hp
        cases hemb : embedApi (extractPageText items) with
        | none =>
            rw [hemb] at hp
            dsimp only at hp
            exact Or.inl hp
        | some emb =>
            rw [hemb] at hp
            dsimp only at hp
            by_cases hlen : emb.length = EMBEDDING_DIM
            · have hins : insertDocumentPage db
                  { document_id := docId
                    user_id := userId
                    page_number := n
                    page_content := extractPageText items
                    page_embeddings := emb } =
                  (true, { db with document_pages := db.document_pages ++
                    [{ document_id := docId
                       user_id := userId
                       page_number := n
                       page_content := extractPageText items
                       page_embeddings := emb }] }) := by
                unfold insertDocumentPage
                rw [if_pos hlen]
              rw [hins] at hp
              dsimp only at hp
              rcases ih (n + 1) _ p hp with h | ⟨h1, h2, items2, hi, he⟩
              · rcases List.mem_append.mp h with h3 | h3
                · exact Or.inl h3
                · have hp2 := List.mem_singleton.mp h3
                  subst hp2
                  exact Or.inr ⟨hskip, hemb, items,
                    List.mem_cons_self items rest, rfl⟩
              · exact Or.inr ⟨h1, h2, items2,
                  List.mem_cons_of_mem items hi, he⟩
            · have hins : insertDocumentPage db
                  { document_id := docId
                    user_id := userId
                    page_number := n
                    page_content := extractPageText items
                    page_embeddings := emb } = (false, db) := by
                unfold insertDocumentPage
                rw [if_neg hlen]
              rw [hins] at hp
              dsimp only at hp
              exact Or.inl hp

/-- Unfolding lemma: a page whose extracted text is empty is skipped. -/
theorem processPages_cons_skip (embedApi : String → Option (List ℚ))
    (docId : Nat) (userId : String) (items : List String)
    (rest : List (List String)) (n : Nat) (db : AppDb)
    (h0 : (extractPageText items).length = 0) :
    processPages embedApi docId userId (items :: rest) n db =
      processPages embedApi docId userId rest (n + 1) db := by
  simp only [processPages]
  rw [if_pos h0]

/-- Unfolding lemma: a page with non-empty text, a successful embedding
call and a well-dimensioned vector is stored and the loop continues. -/
theorem processPages_cons_store (embedApi : String → Option (List ℚ))
    (docId : Nat) (userId : String) (items : List String)
    (rest : List (List String)) (n : Nat) (db : AppDb) (emb : List ℚ)
    (hne : ¬ (extractPageText items).length = 0)
    (hemb : embedApi (extractPageText items) = some emb)
    (hlen : emb.length = EMBEDDING_DIM) :
    processPages embedApi docId userId (items :: rest) n db =
      processPages embedApi docId userId rest (n + 1)
        { db with document_pages := db.document_pages ++
            [{ document_id := docId
               user_id := userId
               page_number := n
               page_content := extractPageText items
               page_embeddings := emb }] } := by
  simp only [processPages]
  rw [if_neg hne, hemb]
  dsimp only
  have hins : insertDocumentPage db
      { document_id := docId
        user_id := userId
        page_number := n
        page_content := extractPageText items
        page_embeddings := emb } =
      (true, { db with document_pages := db.document_pages ++
        [{ document_id := docId
           user_id := userId
           page_number := n
           page_content := extractPageText items
           page_embeddings := emb }] }) := by
    unfold insertDocumentPage
    dsimp only
    rw [if_pos hlen]
  rw [hins]
  rfl

/-- A 1536-dimensional vector, the embedding used by the C9 witness. -/
def c9Vec : List ℚ := List.replicate EMBEDDING_DIM 11

/-- An embed endpoint answering the witness page text with `c9Vec`. -/
def c9EmbedApi : String → Option (List ℚ) :=
  fun s => if s = "Hello world" then some c9Vec else none

/-- The row stored for the first (non-empty) page of the witness upload. -/
def c9StoredPage : DocumentPageRow :=
  { document_id := 7
    user_id := "alice"
    page_number := 1
    page_content := "Hello world"
    page_embeddings := c9Vec }

theorem processFile_stored_pages_witness :
    c9StoredPage ∈ emptyAppDb.document_pages ∨
      (¬ c9StoredPage.page_content.length = 0 ∧
       c9EmbedApi c9StoredPage.page_content = some c9StoredPage.page_embeddings ∧
       ∃ items ∈ [["Hello", "world"], [""]],
         c9StoredPage.page_content = extractPageText items) := by
  have htext : extractPageText ["Hello", "world"] = "Hello world" := by decide
  have hne : ¬ (extractPageText ["Hello", "world"]).length = 0 := by decide
  have h0 : (extractPageText [""]).length = 0 := by decide
  have hlen : c9Vec.length = EMBEDDING_DIM := by
    rw [c9Vec, List.length_replicate]
  have hemb : c9EmbedApi (extractPageText ["Hello", "world"]) = some c9Vec := by
    rw [htext]
    unfold c9EmbedApi
    rw [if_pos rfl]
  have hrun : (processPages c9EmbedApi 7 "alice" [["Hello", "world"], [""]]
      1 emptyAppDb).1.document_pages = [c9StoredPage] := by
    rw [processPages_cons_store c9EmbedApi 7 "alice" ["Hello", "world"]
      [[""]] 1 emptyAppDb c9Vec hne hemb hlen]
    rw [processPages_cons_skip c9EmbedApi 7 "alice" [""] [] 2 _ h0]
    show ([] : List DocumentPageRow) ++
      [{ document_id := 7
         user_id := "alice"
         page_number := 1
         page_content := extractPageText ["Hello", "world"]
         page_embeddings := c9Vec }] = [c9StoredPage]
    rw [htext]
    rfl
  exact processFile_stored_pages c9EmbedApi 7 "alice"
    [["Hello", "world"], [""]] 1 emptyAppDb c9StoredPage
    (by rw [hrun]; exact List.mem_singleton.mpr rfl)

end MsGraphApp

namespace MsGraphApp

/-! ### C6: the error message and the Retry button (`Assistant.tsx`)

On a failed query, `handleSubmit` appends an assistant message whose
content embeds the original query between double quotes.  The Retry button
(`Assistant.tsx` lines 564-580) recovers the query with
`message.content.match(/"([^"]+)"/)` and, when a capture exists, calls
`retryMessage(match[1])`, which POSTs `{ query: match[1], filter_by:
{ user_id } }`.  The message text is reconstructed character by character
(the apostrophe and the double quotes via their code points). -/

/-- The fixed text preceding the opening quote in the error message. -/
def errHeadChars : List Char :=
  "I".data ++ [aposChar] ++
    "m sorry, I encountered an error while processing your request: ".data

/-- The fixed text following the closing quote in the error message. -/
def errTailChars : List Char :=
  ". You can try again or ask a different question.".data

/-- The content of the error message appended by `handleSubmit` for the
query `q`. -/
def errorMessageContent (q : List Char) : List Char :=
  errHeadChars ++ [quoteChar] ++ q ++ [quoteChar] ++ errTailChars

/-- The leftmost match of the JS regex `"([^"]+)"` (capture group 1): scan
for a double quote followed by at least one non-quote character and a
closing double quote; on a failed attempt the scan resumes at the next
position, as the JS regex engine does. -/
def firstQuoted : List Char → Option (List Char)
  | [] => none
  | c :: rest =>
      if c = quoteChar then
        match rest.dropWhile (fun d => ¬ d = quoteChar) with
        | [] => firstQuoted rest
        | _ :: _ =>
            let run := rest.takeWhile (fun d => ¬ d = quoteChar)
            if run = [] then firstQuoted rest else some run
      else firstQuoted rest

/-- The query text the Retry button sends: `match[1]` of the regex applied
to the message content (`none` when the regex does not match, in which
case no request is sent). -/
def retryQueryOf (content : List Char) : Option (List Char) :=
  firstQuoted content

/-- Scanning past quote-free text does not change the first quoted run. -/
theorem firstQuoted_append_of_no_quote (p s : List Char)
    (hp : quoteChar ∉ p) : firstQuoted (p ++ s) = firstQuoted s := by
  induction p with
  | nil => rfl
  | cons c p2 ih =>
      have hc : ¬ c = quoteChar := fun h =>
        hp (h ▸ List.mem_cons_self c p2)
      have hp2 : quoteChar ∉ p2 := fun h => hp (List.mem_cons_of_mem c h)
      show firstQuoted (c :: (p2 ++ s)) = firstQuoted s
      rw [firstQuoted, if_neg hc]
      exact ih hp2

/-- `takeWhile (not a quote)` over quote-free text followed by a quote
yields exactly that text. -/
theorem takeWhile_no_quote (q s : List Char) (hq : quoteChar ∉ q) :
    (q ++ quoteChar :: s).takeWhile (fun d => ¬ d = quoteChar) = q := by
  induction q with
  | nil => simp [List.takeWhile]
  | cons c q2 ih =>
      have hc : ¬ c = quoteChar := fun h =>
        hq (h ▸ List.mem_cons_self c q2)
      have hq2 : quoteChar ∉ q2 := fun h => hq (List.mem_cons_of_mem c h)
      show ((c :: (q2 ++ quoteChar :: s)).takeWhile
        fun d => ¬ d = quoteChar) = c :: q2
      simp [List.takeWhile_cons, hc]
      simpa using ih hq2

/-- `dropWhile (not a quote)` over quote-free text followed by a quote
stops exactly at the quote. -/
theorem dropWhile_no_quote (q s : List Char) (hq : quoteChar ∉ q) :
    (q ++ quoteChar :: s).dropWhile (fun d => ¬ d = quoteChar) =
      quoteChar :: s := by
  induction q with
  | nil => simp [List.dropWhile]
  | cons c q2 ih =>
      have hc : ¬ c = quoteChar := fun h =>
        hq (h ▸ List.mem_cons_self c q2)
      have hq2 : quoteChar ∉ q2 := fun h => hq (List.mem_cons_of_mem c h)
      show ((c :: (q2 ++ quoteChar :: s)).dropWhile
        fun d => ¬ d = quoteChar) = quoteChar :: s
      simp [List.dropWhile_cons, hc]
      simpa using ih hq2

/-- C6 (amended): for every query text containing no double-quote
character, the Retry button recovers and re-sends exactly the original
query, character for character.  (A query containing a double quote is
truncated by the regex extraction, so the unconditional claim fails.) -/
theorem retry_resends_exact_query (q : List Char) (hne : ¬ q = [])
    (hq : quoteChar ∉ q) :
    retryQueryOf (errorMessageContent q) = some q := by
  have hhead : quoteChar ∉ errHeadChars := by decide
  unfold retryQueryOf errorMessageContent
  have hassoc : errHeadChars ++ [quoteChar] ++ q ++ [quoteChar] ++
      errTailChars =
      errHeadChars ++ (quoteChar :: (q ++ quoteChar :: errTailChars)) := by
    simp [List.append_assoc]
  rw [hassoc, firstQuoted_append_of_no_quote errHeadChars _ hhead]
  rw [firstQuoted, if_pos rfl]
  rw [dropWhile_no_quote q errTailChars hq]
  rw [takeWhile_no_quote q errTailChars hq]
  rw [if_neg hne]

theorem retry_resends_exact_query_witness :
    retryQueryOf (errorMessageContent "hello world".data) =
      some "hello world".data :=
  retry_resends_exact_query "hello world".data (by decide) (by decide)

/-- A query that itself contains a double quote. -/
def c6Query : List Char := ['a', quoteChar, 'b']

/-- C6 counterexample: for the query `a"b`, the Retry button sends `a`
instead of the original query — the regex capture stops at the embedded
double quote, so the retried query is not the original text. -/
theorem retry_truncates_quoted_query :
    retryQueryOf (errorMessageContent c6Query) = some ['a'] ∧
    ¬ retryQueryOf (errorMessageContent c6Query) = some c6Query := by
  constructor
  · decide
  · decide

end MsGraphApp

namespace MsGraphApp

/-! ### C1 and C8: the backend retrieval pipeline

The Retriever and the Context Filter/Formatter run in the FastAPI backend
(`api.know360.io/llm_twin`), whose source is not part of this repository;
the definitions below are modelled from the specification text (spec
sections 3, 4.1 and 4.4). -/

/-- Modelled from the spec: the `source_type` enumeration of a Record
(spec section 3), a fixed enumeration. -/
inductive SourceType where
  | document
  | email
  | calendar_event
  | next_week_event
deriving DecidableEq, Repr

/-- Modelled from the spec: a Record, the unit of retrievable knowledge
(spec section 3), restricted to the fields the Retriever and the Context
Filter/Formatter consume (`id` as the tie-breaking key, `user_id` as the
owner scope, `source_type`, `title`, `content`, `embedding`). -/
structure Record where
  id : Nat
  user_id : String
  source_type : SourceType
  title : String
  content : String
  embedding : List ℚ
deriving DecidableEq, Repr

/-- Ranking order on scored records: higher similarity first, ties broken
by ascending id (spec section 3, Retrieval Result). -/
def rankBefore (a b : Record × ℚ) : Bool :=
  if b.2 < a.2 then true
  else if a.2 = b.2 then decide (a.1.id ≤ b.1.id)
  else false

/-- Insertion into a ranked list. -/
def insertRanked (le : α → α → Bool) (a : α) : List α → List α
  | [] => [a]
  | b :: bs => if le a b then a :: b :: bs else b :: insertRanked le a bs

/-- Insertion sort by a ranking predicate. -/
def sortRanked (le : α → α → Bool) : List α → List α
  | [] => []
  | a :: as => insertRanked le a (sortRanked le as)

theorem mem_insertRanked (le : α → α → Bool) (a x : α) (l : List α) :
    x ∈ insertRanked le a l ↔ x = a ∨ x ∈ l := by
  induction l with
  | nil => simp [insertRanked]
  | cons b bs ih =>
      show x ∈ (if le a b then a :: b :: bs else b :: insertRanked le a bs) ↔ _
      by_cases hle : le a b
      · rw [if_pos hle]
        simp [List.mem_cons]
      · rw [if_neg hle]
        simp only [List.mem_cons, ih]
        tauto

theorem mem_sortRanked (le : α → α → Bool) (x : α) (l : List α) :
    x ∈ sortRanked le l ↔ x ∈ l := by
  induction l with
  | nil => simp [sortRanked]
  | cons a as ih =>
      show x ∈ insertRanked le a (sortRanked le as) ↔ _
      rw [mem_insertRanked]
      simp only [List.mem_cons, ih]

/-- Modelled from the spec: the Retriever contract
`retrieve(query_vector, records, user_id, top_k)` of spec section 4.1 —
filter `records` to those with matching `user_id` before scoring, score
each in-scope record against the query vector, return the `top_k`
highest-scoring records, descending by score with ties broken by
ascending id.  The similarity function (canonically cosine similarity) is
the parameter `sim`. -/
def retrieve (sim : List ℚ → List ℚ → ℚ) (queryVec : List ℚ)
    (records : List Record) (userId : String) (topK : Nat) :
    List (Record × ℚ) :=
  let inScope := records.filter fun r => r.user_id = userId
  let scored := inScope.map fun r => (r, sim queryVec r.embedding)
  (sortRanked rankBefore scored).take topK

/-- C1: every record returned by `retrieve` under scope `A` belongs to
user `A`; in particular, for any distinct user ids `A` and `B`, retrieval
under scope `A` never returns a record whose `user_id` is `B` — records
are filtered to the querying user before any similarity scoring. -/
theorem retrieve_scope_isolation (sim : List ℚ → List ℚ → ℚ)
    (queryVec : List ℚ) (records : List Record) (A B : String)
    (topK : Nat) (p : Record × ℚ)
    (hp : p ∈ retrieve sim queryVec records A topK) :
    p.1.user_id = A ∧ (¬ A = B → ¬ p.1.user_id = B) := by
  simp only [retrieve] at hp
  have hmem : p ∈ (((records.filter fun r => decide (r.user_id = A)).map
      fun r => (r, sim queryVec r.embedding)) : List (Record × ℚ)) := by
    have h1 := List.mem_of_mem_take hp
    exact (mem_sortRanked rankBefore p _).mp h1
  rcases List.mem_map.mp hmem with ⟨r, hr, hpr⟩
  have hscope : r.user_id = A := of_decide_eq_true (List.mem_filter.mp hr).2
  have huser : p.1.user_id = A := by rw [← hpr]; exact hscope
  exact ⟨huser, fun hAB hB => hAB (huser ▸ hB)⟩

/-- Two records owned by alice and one by bob. -/
def c1Records : List Record :=
  [{ id := 1, user_id := "alice", source_type := .email,
     title := "a1", content := "alpha", embedding := [1, 0] },
   { id := 2, user_id := "bob", source_type := .email,
     title := "b1", content := "beta", embedding := [1, 0] },
   { id := 3, user_id := "alice", source_type := .document,
     title := "a2", content := "gamma", embedding := [0, 1] }]

/-- The record of alice that the witness retrieval returns. -/
def c1AliceRec : Record :=
  { id := 1, user_id := "alice", source_type := .email,
    title := "a1", content := "alpha", embedding := [1, 0] }

theorem retrieve_scope_isolation_witness :
    (c1AliceRec, (1 : ℚ)).1.user_id = "alice" ∧
    (¬ "alice" = "bob" → ¬ (c1AliceRec, (1 : ℚ)).1.user_id = "bob") :=
  retrieve_scope_isolation (fun _ _ => 1) [1, 0] c1Records "alice" "bob" 5
    (c1AliceRec, 1) (by decide)

end MsGraphApp

namespace MsGraphApp

/-- Modelled from the spec: the attribution label of a record's
`source_type` used when serializing excerpts (spec section 4.4). -/
def sourceTypeLabel : SourceType → List Char
  | .document => "Document".data
  | .email => "Email".data
  | .calendar_event => "Calendar event".data
  | .next_week_event => "Upcoming event".data

/-- Modelled from the spec: the serialization of one selected record,
attributing the excerpt to its `source_type` and identifying metadata so
the Synthesizer can cite sources (spec section 4.4). -/
def formatRecord (r : Record) : List Char :=
  "Source: ".data ++ sourceTypeLabel r.source_type ++ " | ".data ++
    r.title.data ++ "\n".data ++ r.content.data ++ "\n\n".data

/-- Modelled from the spec: the serialization loop of
`filter_and_format` — records are taken in rank order; a record whose
block still fits within `max_context_chars` is appended and selected;
when the very first record alone exceeds the bound its text is truncated
to fit (the record stays selected, the operation does not fail);
otherwise the remaining lower-ranked records are dropped wholesale (spec
section 4.4). -/
def formatLoop (maxChars : Nat) :
    List (Record × ℚ) → List Char → List Record → List Char × List Record
  | [], acc, sel => (acc, sel.reverse)
  | (r, _) :: rest, acc, sel =>
      let block := formatRecord r
      if acc.length + block.length ≤ maxChars then
        formatLoop maxChars rest (acc ++ block) (r :: sel)
      else if sel.isEmpty then
        (acc ++ block.take (maxChars - acc.length), [r])
      else
        (acc, sel.reverse)

/-- Modelled from the spec: the Context Filter/Formatter contract
`filter_and_format(retrieval_result, analysis, max_context_chars)` of
spec section 4.4 — the analysis constraints (represented by the predicate
`matchesAnalysis`) are applied as a post-filter over the retrieval
result; if filtering would eliminate all records the unfiltered result is
used instead; the surviving records are serialized into a context block
of at most `max_context_chars` characters, returning the block and the
selected records. -/
def filterAndFormat (matchesAnalysis : Record → Bool)
    (result : List (Record × ℚ)) (maxChars : Nat) :
    List Char × List Record :=
  let filtered := result.filter fun p => matchesAnalysis p.1
  let base := if filtered.isEmpty then result else filtered
  formatLoop maxChars base [] []

theorem formatLoop_length_le (maxChars : Nat) :
    ∀ (l : List (Record × ℚ)) (acc : List Char) (sel : List Record),
      acc.length ≤ maxChars →
      (formatLoop maxChars l acc sel).1.length ≤ maxChars := by
  intro l
  induction l with
  | nil => intro acc sel hacc; exact hacc
  | cons p rest ih =>
      intro acc sel hacc
      rcases p with ⟨r, s⟩
      show (formatLoop maxChars ((r, s) :: rest) acc sel).1.length ≤ maxChars
      simp only [formatLoop]
      by_cases hfits : acc.length + (formatRecord r).length ≤ maxChars
      · rw [if_pos hfits]
        refine ih (acc ++ formatRecord r) (r :: sel) ?_
        rw [List.length_append]
        exact hfits
      · rw [if_neg hfits]
        by_cases hsel : sel.isEmpty
        · rw [if_pos hsel]
          show (acc ++ (formatRecord r).take (maxChars - acc.length)).length ≤
            maxChars
          rw [List.length_append, List.length_take]
          omega
        · rw [if_neg hsel]
          exact hacc

theorem formatLoop_sel_ne (maxChars : Nat) :
    ∀ (l : List (Record × ℚ)) (acc : List Char) (sel : List Record),
      ¬ sel = [] → ¬ (formatLoop maxChars l acc sel).2 = [] := by
  intro l
  induction l with
  | nil =>
      intro acc sel hsel
      show ¬ sel.reverse = []
      simpa using hsel
  | cons p rest ih =>
      intro acc sel hsel
      rcases p with ⟨r, s⟩
      show ¬ (formatLoop maxChars ((r, s) :: rest) acc sel).2 = []
      simp only [formatLoop]
      by_cases hfits : acc.length + (formatRecord r).length ≤ maxChars
      · rw [if_pos hfits]
        exact ih (acc ++ formatRecord r) (r :: sel) (List.cons_ne_nil r sel)
      · rw [if_neg hfits]
        by_cases hempty : sel.isEmpty
        · exact absurd (List.isEmpty_iff.mp hempty) hsel
        · rw [if_neg hempty]
          show ¬ sel.reverse = []
          simpa using hsel

theorem formatLoop_sel_ne_of_input (maxChars : Nat) (r : Record) (s : ℚ)
    (rest : List (Record × ℚ)) :
    ¬ (formatLoop maxChars ((r, s) :: rest) [] []).2 = [] := by
  simp only [formatLoop]
  by_cases hfits : List.length ([] : List Char) +
      (formatRecord r).length ≤ maxChars
  · rw [if_pos hfits]
    exact formatLoop_sel_ne maxChars rest ([] ++ formatRecord r) [r]
      (List.cons_ne_nil r [])
  · rw [if_neg hfits]
    simp

/-- C8: for every retrieval result, analysis predicate and bound, the
context text produced by `filter_and_format` has length at most
`max_context_chars`; and whenever the retrieval result is non-empty the
selected records are non-empty as well — in particular a single record
whose content alone exceeds the bound is truncated and kept, never
dropped and never a failure. -/
theorem filter_and_format_bounded (matchesAnalysis : Record → Bool)
    (result : List (Record × ℚ)) (maxChars : Nat) :
    (filterAndFormat matchesAnalysis result maxChars).1.length ≤ maxChars ∧
    (¬ result = [] →
      ¬ (filterAndFormat matchesAnalysis result maxChars).2 = []) := by
  constructor
  · exact formatLoop_length_le maxChars _ [] [] (Nat.zero_le maxChars)
  · intro hres
    show ¬ (formatLoop maxChars
      (if (result.filter fun p => matchesAnalysis p.1).isEmpty then result
       else result.filter fun p => matchesAnalysis p.1) [] []).2 = []
    by_cases hfilt : (result.filter fun p => matchesAnalysis p.1).isEmpty
    · rw [if_pos hfilt]
      cases result with
      | nil => exact absurd rfl hres
      | cons p rest =>
          rcases p with ⟨r, s⟩
          exact formatLoop_sel_ne_of_input maxChars r s rest
    · rw [if_neg hfilt]
      cases hc : result.filter fun p => matchesAnalysis p.1 with
      | nil => rw [hc] at hfilt; exact absurd rfl hfilt
      | cons p rest =>
          rcases p with ⟨r, s⟩
          exact formatLoop_sel_ne_of_input maxChars r s rest

/-- A record whose content alone is far longer than the witness bound. -/
def c8LongRecord : Record :=
  { id := 1
    user_id := "alice"
    source_type := .document
    title := "big"
    content := String.mk (List.replicate 200 'x')
    embedding := [1] }

theorem filter_and_format_bounded_witness :
    (filterAndFormat (fun _ => true) [(c8LongRecord, 1)] 50).1.length ≤ 50 ∧
    ¬ (filterAndFormat (fun _ => true) [(c8LongRecord, 1)] 50).2 = [] := by
  have h := filter_and_format_bounded (fun _ => true) [(c8LongRecord, 1)] 50
  exact ⟨h.1, h.2 (by decide)⟩

end MsGraphApp
